import Mathlib

/-!
# Verification of gh-pr-comments against its specification

Shallow embedding of the `gh-pr-comments` GitHub CLI extension
(packages `internal/github` and `cmd`).  Go strings that the modelled
logic only copies around are kept as Lean `String`s; the string that
`TruncateString` slices bytewise is modelled as a `List Char` of
single-byte (ASCII) characters, so Go's byte length is the list length.
Machine integers (`int64` comment / review IDs) carry no arithmetic in
the modelled code paths, so they are embedded as `Int`.
-/

namespace GhPrComments

/-- REST review-comment record (`internal/github` `ReviewComment`).
Fields not consulted by any modelled logic (timestamps, URLs, diff
hunks, sides, node IDs) are elided. `Position`/`Line` are nullable in
the JSON, hence `Option`. `IsResolved` has no REST source field; the
REST decode leaves it at Go's zero value `false`. -/
structure ReviewComment where
  id : Int
  pullRequestReviewID : Int
  path : String
  position : Option Int
  originalPosition : Option Int
  line : Option Int
  originalLine : Option Int
  userLogin : String
  body : String
  isResolved : Bool
deriving DecidableEq, Repr

/-- `func (rc *ReviewComment) IsOutdated() bool { return rc.Position == nil || rc.Line == nil }` -/
def ReviewComment.IsOutdated (rc : ReviewComment) : Bool :=
  rc.position.isNone || rc.line.isNone

/-- REST review record (`internal/github` `Review`); timestamp and URL elided. -/
structure Review where
  id : Int
  nodeID : String
  userLogin : String
  body : String
  state : String
deriving DecidableEq, Repr

/-- GraphQL review-thread node: opaque node ID, resolved flag, member
comment database IDs.  Used both for the server-side thread data and
for the `ReviewThread` values accumulated by `GetReviewThreads`. -/
structure ReviewThread where
  id : String
  isResolved : Bool
  commentIDs : List Int
deriving DecidableEq, Repr

/-! ## Go map embedding

The Go code builds `map[int64]bool` / `map[int64]string` values by
iterating and assigning; a later assignment to the same key overwrites
an earlier one.  We embed such a map as the list of assignments in
program order, with a last-write-wins lookup. -/

/-- Last-write-wins lookup over an assignment list (Go map semantics). -/
def lookupLast {β : Type} (m : List (Int × β)) (k : Int) : Option β :=
  m.foldl (fun acc p => if p.1 = k then some p.2 else acc) none

/-! ## Thread reconciliation (`internal/github/client.go`)

The GraphQL server holds the pull request's full thread list.  Both
`getResolvedStatus` and `GetReviewThreads` request
`reviewThreads(first: 100)` with `comments(first: 100)` inside each
thread node, so a response page consists of at most 100 thread nodes,
each carrying at most the thread's first 100 comment database IDs.
`GetReviewThreads` additionally passes an `after: $cursor` argument and
loops while `pageInfo.hasNextPage`; `getResolvedStatus` issues a single
request (it declares `pageInfo` in its query but never reads it). -/

/-- Shape of one thread node as returned under `comments(first: 100)`:
the comment ID list is truncated to the first 100 entries. -/
def truncNode (t : ReviewThread) : ReviewThread :=
  { t with commentIDs := t.commentIDs.take 100 }

/-- The server's response page for `reviewThreads(first: 100, after: cursor)`:
up to 100 thread nodes starting at offset `off`, each with its comments
truncated, plus `hasNextPage`. -/
def serverPage (server : List ReviewThread) (off : Nat) : List ReviewThread × Bool :=
  (((server.drop off).take 100).map truncNode, off + 100 < server.length)

/-- `getResolvedStatus`: build `map[int64]bool` from comment database ID
to the owning thread's `isResolved`, iterating the response's thread
nodes and each node's comments in order (last write wins on lookup).
The function issues one unpaginated `reviewThreads(first: 100)` query,
i.e. it sees only `serverPage server 0`. -/
def resolvedEntries (threads : List ReviewThread) : List (Int × Bool) :=
  threads.foldl (fun acc t => acc ++ t.commentIDs.map fun cid => (cid, t.isResolved)) []

/-- The `map[int64]bool` built by `getResolvedStatus` from the single
response page it requests. -/
def getResolvedStatus (server : List ReviewThread) : List (Int × Bool) :=
  resolvedEntries (serverPage server 0).1

/-- The paging loop of `GetReviewThreads`, starting at cursor offset
`off`: append this page's nodes; stop when `hasNextPage` is false,
otherwise continue from the page's end cursor. -/
def getReviewThreadsFrom (server : List ReviewThread) (off : Nat) : List ReviewThread :=
  match hp : serverPage server off with
  | (nodes, true) => nodes ++ getReviewThreadsFrom server (off + 100)
  | (nodes, false) => nodes
termination_by server.length - off
decreasing_by
  have h : (serverPage server off).2 = true := by rw [hp]
  simp only [serverPage, decide_eq_true_eq] at h
  omega

/-- `GetReviewThreads`: accumulate all thread nodes across pages,
starting with a nil cursor. -/
def GetReviewThreads (server : List ReviewThread) : List ReviewThread :=
  getReviewThreadsFrom server 0

/-- The `map[int64]string` from comment ID to owning thread node ID
built by `runResolve` (cmd/resolve.go) from the fetched threads. -/
def threadEntries (threads : List ReviewThread) : List (Int × String) :=
  threads.foldl (fun acc t => acc ++ t.commentIDs.map fun cid => (cid, t.id)) []

/-- Merge step of `GetReviewComments`: for each REST comment, overwrite
`IsResolved` with the map entry for its ID when present, leave the
comment unchanged otherwise. -/
def mergeResolved (resolvedMap : List (Int × Bool)) (comments : List ReviewComment) :
    List ReviewComment :=
  comments.map fun c =>
    match lookupLast resolvedMap c.id with
    | some r => { c with isResolved := r }
    | none => c

/-- `GetReviewComments`: REST comment list plus the result of the
GraphQL resolved-status fetch.  On fetch failure a warning is printed
(second component `true`) and the REST list is returned unchanged; on
success the resolved map is merged in. -/
def GetReviewComments (restComments : List ReviewComment)
    (fetch : Except String (List ReviewThread)) : List ReviewComment × Bool :=
  match fetch with
  | .error _ => (restComments, true)
  | .ok server => (mergeResolved (getResolvedStatus server) restComments, false)

/-! ## `cmd/list.go`: flag state and `filterReviewComments` -/

/-- The package-level flag variables consulted by `filterReviewComments`
and `runList`: `listReviewID` (0 = unset), `listOutdated` / `listResolved`
("" = unset), `listAll`, `listCommentType` ("" = both kinds). -/
structure ListFlags where
  reviewID : Int
  outdated : String
  resolved : String
  all : Bool
  commentType : String
deriving DecidableEq, Repr

/-- First `continue` condition: `listReviewID != 0 && c.PullRequestReviewID != listReviewID`. -/
def skipByReviewID (f : ListFlags) (c : ReviewComment) : Bool :=
  f.reviewID != 0 && c.pullRequestReviewID != f.reviewID

/-- Second `continue` condition, from the `listOutdated != ""` block. -/
def skipByOutdated (f : ListFlags) (c : ReviewComment) : Bool :=
  f.outdated != "" &&
    ((f.outdated == "true" && !c.IsOutdated) || (f.outdated == "false" && c.IsOutdated))

/-- Third `continue` condition, from the `if !listAll` block: with
`listResolved` supplied, mismatching comments are skipped; otherwise
resolved comments are skipped by default.  With `--all` the whole
block is bypassed. -/
def skipByResolved (f : ListFlags) (c : ReviewComment) : Bool :=
  !f.all &&
    (if f.resolved != "" then
      (f.resolved == "true" && !c.isResolved) || (f.resolved == "false" && c.isResolved)
    else c.isResolved)

/-- `filterReviewComments`: iterate the fetched comments, skipping on
any of the three conditions, appending survivors in order. -/
def filterReviewComments (f : ListFlags) (comments : List ReviewComment) :
    List ReviewComment :=
  comments.foldl
    (fun result c =>
      if skipByReviewID f c || skipByOutdated f c || skipByResolved f c then result
      else result ++ [c])
    []

/-- A row of `runList`'s unified output (struct `unifiedComment`);
`line` keeps the `*c.OriginalLine` source of the formatted field. -/
structure UnifiedComment where
  type_ : String
  id : Int
  author : String
  body : String
  file : String
  line : Option Int
  outdated : Bool
  resolved : Bool
  reviewID : Int
deriving DecidableEq, Repr

/-- Conversion of a filtered review comment to a `unifiedComment` row in `runList`. -/
def toUnifiedReview (c : ReviewComment) : UnifiedComment :=
  { type_ := "review", id := c.id, author := c.userLogin, body := c.body,
    file := c.path, line := c.originalLine, outdated := c.IsOutdated,
    resolved := c.isResolved, reviewID := c.pullRequestReviewID }

/-- REST issue-comment record (`internal/github` `IssueComment`); timestamps and URLs elided. -/
structure IssueComment where
  id : Int
  userLogin : String
  body : String
deriving DecidableEq, Repr

/-- Conversion of an issue comment to a `unifiedComment` row in `runList`. -/
def toUnifiedIssue (c : IssueComment) : UnifiedComment :=
  { type_ := "issue", id := c.id, author := c.userLogin, body := c.body,
    file := "", line := none, outdated := false, resolved := false, reviewID := 0 }

/-- The comment rows assembled by `runList`: review comments (filtered)
when `--type` is empty or "review", then issue comments when `--type`
is empty or "issue". -/
def runListComments (f : ListFlags) (reviewComments : List ReviewComment)
    (issueComments : List IssueComment) : List UnifiedComment :=
  (if f.commentType = "" ∨ f.commentType = "review" then
    (filterReviewComments f reviewComments).map toUnifiedReview
  else []) ++
  (if f.commentType = "" ∨ f.commentType = "issue" then
    issueComments.map toUnifiedIssue
  else [])

/-! ## `cmd` tree view: `runTree`'s `commentsByReview` map -/

/-- The value at key `rid` of the `commentsByReview` map built by
`runTree`: comments are appended in iteration order, except that with
`treeAll` unset resolved comments are skipped. -/
def treeCommentsForReview (treeAll : Bool) (comments : List ReviewComment) (rid : Int) :
    List ReviewComment :=
  comments.foldl
    (fun acc c =>
      if !treeAll && c.isResolved then acc
      else if c.pullRequestReviewID == rid then acc ++ [c]
      else acc)
    []

/-! ## `cmd/cleanup.go`: `identifyCleanupCandidates` -/

/-- `ReviewCleanupCandidate` (JSON field names `total_comments`,
`resolved_comments`, `can_minimize`, `reason`). -/
structure ReviewCleanupCandidate where
  review : Review
  totalCount : Nat
  resolvedCount : Nat
  canMinimize : Bool
  reason : String
deriving DecidableEq, Repr

/-- The value at key `rid` of cleanup's `commentsByReview` map:
comments with that `PullRequestReviewID`, in iteration order. -/
def commentsByReview (comments : List ReviewComment) (rid : Int) : List ReviewComment :=
  comments.foldl
    (fun acc c => if c.pullRequestReviewID == rid then acc ++ [c] else acc) []

/-- Candidate for one review: count its comments and the resolved ones
(`countP` is the Go counting loop), then classify. -/
def candidateFor (comments : List ReviewComment) (r : Review) : ReviewCleanupCandidate :=
  let reviewComments := commentsByReview comments r.id
  let total := reviewComments.length
  let resolvedCount := reviewComments.countP (·.isResolved)
  if total = 0 then
    { review := r, totalCount := total, resolvedCount := resolvedCount,
      canMinimize := false, reason := "no inline comments" }
  else if resolvedCount < total then
    { review := r, totalCount := total, resolvedCount := resolvedCount,
      canMinimize := false, reason := "has unresolved comments" }
  else
    { review := r, totalCount := total, resolvedCount := resolvedCount,
      canMinimize := true, reason := "" }

/-- `identifyCleanupCandidates`: one candidate per review, in review order. -/
def identifyCleanupCandidates (reviews : List Review) (comments : List ReviewComment) :
    List ReviewCleanupCandidate :=
  reviews.map (candidateFor comments)

/-! ## `cmd/resolve.go`: `runResolve`'s dedup loop

The loop is modelled with explicit state: the accumulated results, the
`processedThreads` set, and the log of `ResolveThread` mutation calls
actually issued (one entry per GraphQL mutation, carrying the thread
ID).  The network mutation itself is taken to succeed (`err == nil`);
the claim under verification concerns call deduplication, not
transport failures. -/

structure ResolveResult where
  commentID : Int
  threadID : String
  action : String
  success : Bool
  skipped : Bool
  error : String
deriving DecidableEq, Repr

structure ResolveState where
  results : List ResolveResult
  processedThreads : List String
  mutationCalls : List String
deriving DecidableEq, Repr

/-- One iteration of `runResolve`'s loop over the requested comment IDs. -/
def resolveStep (commentToThread : Int → Option String) (st : ResolveState) (cid : Int) :
    ResolveState :=
  match commentToThread cid with
  | none =>
    { st with results := st.results ++
        [{ commentID := cid, threadID := "", action := "resolved", success := false,
           skipped := false, error := "comment not found in any review thread" }] }
  | some tid =>
    if tid ∈ st.processedThreads then
      { st with results := st.results ++
          [{ commentID := cid, threadID := tid, action := "resolved", success := true,
             skipped := true, error := "" }] }
    else
      { results := st.results ++
          [{ commentID := cid, threadID := tid, action := "resolved", success := true,
             skipped := false, error := "" }],
        processedThreads := st.processedThreads ++ [tid],
        mutationCalls := st.mutationCalls ++ [tid] }

/-- The full `runResolve` loop over the requested comment IDs. -/
def runResolve (commentToThread : Int → Option String) (commentIDs : List Int) :
    ResolveState :=
  commentIDs.foldl (resolveStep commentToThread) ⟨[], [], []⟩

/-! ## `TruncateString` (internal/github/client.go)

Go strings are byte arrays; `len` and slicing are bytewise.  The model
is a list of characters standing for bytes (exact for ASCII input, and
`'\n'`/`'\r'`/`'.'` are single bytes).  `maxLen` is a Go `int`, hence
`Int`; the slice `s[:maxLen-3]` panics when `maxLen-3 < 0`, which the
model renders as `none`. -/

def TruncateString (s : List Char) (maxLen : Int) : Option (List Char) :=
  let s₁ := s.map fun c => if c = '\n' then ' ' else c
  let s₂ := s₁.filter fun c => c ≠ '\r'
  if (s₂.length : Int) ≤ maxLen then some s₂
  else if 0 ≤ maxLen - 3 then some (s₂.take (maxLen - 3).toNat ++ ['.', '.', '.'])
  else none

/-! ## `ParsePRReference` (internal/github/client.go)

Model of `ParsePRReference` over `List Char`.  The two Go regexes are

  urlPattern:   `github\.com/([^/]+)/([^/]+)/pull/(\d+)`   (unanchored)
  shortPattern: `^([^/]+)/([^/]+)/(\d+)$`                  (anchored)

with Go's leftmost-first matching.  Both patterns are deterministic
despite greedy `[^/]+`/`\d+`: every `[^/]+` capture is immediately
followed by a literal `/`, so only the maximal non-slash run can
match, and the final `\d+` is followed by nothing (respectively `$`),
so it takes the maximal digit run (respectively the whole remainder).
`findURLMatch` scans start positions left to right, attempting a full
match at each position whose text begins with the literal
`github.com/`, exactly as the engine does. -/

/-- Attempt `([^/]+)/([^/]+)/pull/(\d+)` at the position just after a
`github.com/` literal.  The first capture is the maximal non-slash run
(forced by the literal `/` that follows it), which must be nonempty and
must be followed by a `/` (`rest₁ ≠ []`); likewise for the second
capture; then the literal `/pull/` and a nonempty digit run. -/
def tryURLAt (l : List Char) : Option (List Char × List Char × List Char) :=
  let ow := l.takeWhile (· ≠ '/')
  let rest₁ := l.dropWhile (· ≠ '/')
  if ow = [] ∨ rest₁ = [] then none
  else
    let after₁ := rest₁.tail
    let rp := after₁.takeWhile (· ≠ '/')
    let rest₂ := after₁.dropWhile (· ≠ '/')
    if rp = [] then none
    else if rest₂.take 6 = "/pull/".data then
      let ds := (rest₂.drop 6).takeWhile Char.isDigit
      if ds = [] then none else some (ow, rp, ds)
    else none

/-- Leftmost match of the unanchored `urlPattern`: scan start positions
left to right; a match can only start where the text begins with the
literal `github.com/` (11 characters). -/
def findURLMatch (l : List Char) : Option (List Char × List Char × List Char) :=
  match l with
  | [] => none
  | _ :: rest =>
    if l.take 11 = "github.com/".data then
      match tryURLAt (l.drop 11) with
      | some m => some m
      | none => findURLMatch rest
    else findURLMatch rest

/-- Anchored `shortPattern` match `^([^/]+)/([^/]+)/(\d+)$`: maximal
nonempty non-slash runs for the two captures (each followed by a
literal `/`), then the whole remainder must be a nonempty digit run. -/
def matchShortRef (l : List Char) : Option (List Char × List Char × List Char) :=
  let ow := l.takeWhile (· ≠ '/')
  let rest₁ := l.dropWhile (· ≠ '/')
  if ow = [] ∨ rest₁ = [] then none
  else
    let after₁ := rest₁.tail
    let rp := after₁.takeWhile (· ≠ '/')
    let rest₂ := after₁.dropWhile (· ≠ '/')
    if rp = [] ∨ rest₂ = [] then none
    else
      let ds := rest₂.tail
      if ds ≠ [] ∧ ds.all Char.isDigit then some (ow, rp, ds) else none

/-- Decimal value of a digit run, as computed by `strconv.Atoi` on the
regex's `\d+` capture (64-bit overflow is not modelled; the modelled
inputs are far below it). -/
def digitsToNat (ds : List Char) : Nat :=
  ds.foldl (fun n c => n * 10 + (c.toNat - '0'.toNat)) 0

/-- `strconv.Atoi` on a free-form argument (the bare-number branch):
optional sign, then a nonempty digit run and nothing else. -/
def goAtoi (l : List Char) : Option Int :=
  match l with
  | [] => none
  | '+' :: ds => if ds ≠ [] ∧ ds.all Char.isDigit then some (digitsToNat ds) else none
  | '-' :: ds => if ds ≠ [] ∧ ds.all Char.isDigit then some (-(digitsToNat ds : Int)) else none
  | ds => if ds.all Char.isDigit then some (digitsToNat ds) else none

structure PRReference where
  owner : List Char
  repo : List Char
  number : Int
deriving DecidableEq, Repr

/-- `ParsePRReference`: URL pattern first, then the short
`owner/repo/number` pattern, then a bare number (owner and repo left
empty); otherwise an error (`none`). -/
def ParsePRReference (ref : List Char) : Option PRReference :=
  match findURLMatch ref with
  | some (ow, rp, ds) => some ⟨ow, rp, (digitsToNat ds : Int)⟩
  | none =>
    match matchShortRef ref with
    | some (ow, rp, ds) => some ⟨ow, rp, (digitsToNat ds : Int)⟩
    | none =>
      match goAtoi ref with
      | some n => some ⟨[], [], n⟩
      | none => none

/-! ## Concrete fixtures and auxiliary predicates -/

/-- A fixed unresolved review comment used by concrete checks. -/
def sampleUnresolved : ReviewComment :=
  { id := 1, pullRequestReviewID := 7, path := "main.go", position := some 3,
    originalPosition := some 3, line := some 5, originalLine := some 5,
    userLogin := "alice", body := "fix this", isResolved := false }

/-- The disjointness relation between thread nodes: no shared member
comment IDs. -/
def ThreadsDisjoint (t₁ t₂ : ReviewThread) : Prop :=
  ∀ cid ∈ t₁.commentIDs, cid ∉ t₂.commentIDs

instance : DecidableRel ThreadsDisjoint := fun t₁ t₂ => by
  unfold ThreadsDisjoint
  infer_instance

/-- Thread with 101 member comments, resolved. -/
def c1Thread : ReviewThread :=
  { id := "T", isResolved := true, commentIDs := (List.range 101).map Int.ofNat }

/-- 101 REST comments, IDs 0..100, all initially unresolved. -/
def c1Rest : List ReviewComment :=
  (List.range 101).map fun i =>
    { sampleUnresolved with id := Int.ofNat i, pullRequestReviewID := 1 }

/-- Server data for the C2 counterexample: 101 single-comment threads. -/
def c2Server : List ReviewThread :=
  (List.range 101).map fun i => { id := "t", isResolved := true, commentIDs := [Int.ofNat i] }

/-! ## Generic lemmas about the fold shapes used above -/

theorem lookupLast_foldl_init {β : Type} (m : List (Int × β)) (k : Int) (a : Option β) :
    m.foldl (fun acc p => if p.1 = k then some p.2 else acc) a =
      match lookupLast m k with
      | some v => some v
      | none => a := by
  induction m generalizing a with
  | nil => simp [lookupLast]
  | cons p m ih =>
    show m.foldl _ (if p.1 = k then some p.2 else a) = _
    rw [ih]
    conv_rhs => rw [lookupLast]
    show _ = match m.foldl _ (if p.1 = k then some p.2 else none) with
      | some v => some v | none => a
    rw [ih (if p.1 = k then some p.2 else none)]
    cases lookupLast m k <;> by_cases h : p.1 = k <;> simp [h]

theorem lookupLast_append {β : Type} (m₁ m₂ : List (Int × β)) (k : Int) :
    lookupLast (m₁ ++ m₂) k =
      match lookupLast m₂ k with
      | some v => some v
      | none => lookupLast m₁ k := by
  unfold lookupLast
  rw [List.foldl_append]
  exact lookupLast_foldl_init m₂ k _

theorem lookupLast_eq_none {β : Type} (m : List (Int × β)) (k : Int)
    (h : ∀ p ∈ m, p.1 ≠ k) : lookupLast m k = none := by
  induction m with
  | nil => rfl
  | cons p m ih =>
    show m.foldl _ (if p.1 = k then some p.2 else none) = none
    rw [if_neg (h p (by simp))]
    exact ih fun q hq => h q (by simp [hq])



theorem foldl_skip_eq_filter {α : Type} (skip : α → Bool) (l : List α) (acc : List α) :
    l.foldl (fun r c => if skip c then r else r ++ [c]) acc =
      acc ++ l.filter (fun c => !skip c) := by
  induction l generalizing acc with
  | nil => simp
  | cons c l ih =>
    by_cases h : skip c <;> simp [List.filter_cons, h, ih]

theorem foldl_keep_eq_filter {α : Type} (keep : α → Bool) (l : List α) (acc : List α) :
    l.foldl (fun r c => if keep c then r ++ [c] else r) acc = acc ++ l.filter keep := by
  induction l generalizing acc with
  | nil => simp
  | cons c l ih =>
    by_cases h : keep c <;> simp [List.filter_cons, h, ih]

theorem foldl_append_eq_join {α β : Type} (g : β → List α) (l : List β) (acc : List α) :
    l.foldl (fun a t => a ++ g t) acc = acc ++ (l.map g).flatten := by
  induction l generalizing acc with
  | nil => simp
  | cons t l ih => simp [ih, List.append_assoc]

theorem filterReviewComments_eq_filter (f : ListFlags) (comments : List ReviewComment) :
    filterReviewComments f comments =
      comments.filter
        (fun c => !(skipByReviewID f c || skipByOutdated f c || skipByResolved f c)) :=
  foldl_skip_eq_filter _ comments []

theorem commentsByReview_eq_filter (comments : List ReviewComment) (rid : Int) :
    commentsByReview comments rid =
      comments.filter (fun c => c.pullRequestReviewID == rid) :=
  foldl_keep_eq_filter _ comments []

theorem treeCommentsForReview_eq_filter (treeAll : Bool) (comments : List ReviewComment)
    (rid : Int) :
    treeCommentsForReview treeAll comments rid =
      comments.filter (fun c => !(!treeAll && c.isResolved) && (c.pullRequestReviewID == rid)) := by
  show comments.foldl _ [] = _
  have key : ∀ acc, comments.foldl
      (fun acc c =>
        if !treeAll && c.isResolved then acc
        else if c.pullRequestReviewID == rid then acc ++ [c] else acc) acc =
      acc ++ comments.filter
        (fun c => !(!treeAll && c.isResolved) && (c.pullRequestReviewID == rid)) := by
    induction comments with
    | nil => simp
    | cons c l ih =>
      intro acc
      rw [List.foldl_cons, List.filter_cons]
      by_cases h₁ : (!treeAll && c.isResolved) = true
      · have hpred : (!(!treeAll && c.isResolved) && (c.pullRequestReviewID == rid)) = false := by
          rw [h₁]; rfl
        rw [if_pos h₁, hpred, ih]
        simp
      · have h₁' : (!treeAll && c.isResolved) = false := eq_false_of_ne_true h₁
        have hpred : (!(!treeAll && c.isResolved) && (c.pullRequestReviewID == rid)) =
            (c.pullRequestReviewID == rid) := by rw [h₁']; rfl
        by_cases h₂ : (c.pullRequestReviewID == rid) = true
        · rw [if_neg h₁, if_pos h₂, hpred, h₂, ih]
          simp
        · rw [if_neg h₁, if_neg h₂, hpred, eq_false_of_ne_true h₂, ih]
          simp
  simpa using key []

theorem resolvedEntries_eq_join (threads : List ReviewThread) :
    resolvedEntries threads =
      (threads.map fun t => t.commentIDs.map fun cid => (cid, t.isResolved)).flatten :=
  foldl_append_eq_join _ threads []

theorem threadEntries_eq_join (threads : List ReviewThread) :
    threadEntries threads =
      (threads.map fun t => t.commentIDs.map fun cid => (cid, t.id)).flatten :=
  foldl_append_eq_join _ threads []

/-! ## C6: the derived outdated flag -/

/-- C6.  For every review comment, the derived outdated flag is true iff
its position field is null or its line field is null. -/
theorem c6_outdated_iff (c : ReviewComment) :
    c.IsOutdated = true ↔ (c.position = none ∨ c.line = none) := by
  cases hp : c.position <;> cases hl : c.line <;>
    simp [ReviewComment.IsOutdated, hp, hl]

/-! ## C10: `TruncateString` safety -/

/-- C10.  For `maxLen ≥ 3`, `TruncateString` returns (no out-of-range
slice) a string of byte length at most `maxLen` containing no newline
and no carriage return; `maxLen ≥ 3` is what keeps the slice index
`maxLen-3` in range in the truncation branch. -/
theorem c10_truncate_safe (s : List Char) (maxLen : Int) (h : 3 ≤ maxLen) :
    ∃ t, TruncateString s maxLen = some t ∧ (t.length : Int) ≤ maxLen ∧
      '\n' ∉ t ∧ '\r' ∉ t := by
  unfold TruncateString
  set s₁ := s.map (fun c => if c = '\n' then ' ' else c) with hs₁
  set s₂ := s₁.filter (fun c => c ≠ '\r') with hs₂
  have hnl : '\n' ∉ s₂ := by
    intro hmem
    have hmem₁ : '\n' ∈ s₁ := List.mem_of_mem_filter hmem
    rw [hs₁] at hmem₁
    obtain ⟨c, _, hc⟩ := List.mem_map.mp hmem₁
    by_cases hcnl : c = '\n' <;> simp [hcnl] at hc
  have hcr : '\r' ∉ s₂ := by
    intro hmem
    have := List.of_mem_filter hmem
    simp at this
  by_cases hlen : (s₂.length : Int) ≤ maxLen
  · exact ⟨s₂, by rw [if_pos hlen], hlen, hnl, hcr⟩
  · have h3 : (0 : Int) ≤ maxLen - 3 := by omega
    refine ⟨s₂.take (maxLen - 3).toNat ++ ['.', '.', '.'], by rw [if_neg hlen, if_pos h3], ?_, ?_, ?_⟩
    · have htk : (s₂.take (maxLen - 3).toNat).length ≤ (maxLen - 3).toNat :=
        le_trans (List.length_take _ _).le (Nat.min_le_left _ _)
      have : ((maxLen - 3).toNat : Int) = maxLen - 3 := Int.toNat_of_nonneg h3
      simp only [List.length_append, List.length_cons, List.length_nil]
      omega
    · intro hmem
      rcases List.mem_append.mp hmem with hmem | hmem
      · exact hnl (List.mem_of_mem_take hmem)
      · simp at hmem
    · intro hmem
      rcases List.mem_append.mp hmem with hmem | hmem
      · exact hcr (List.mem_of_mem_take hmem)
      · simp at hmem

/-- Witness for C10 at `s = "ab\ncdef"`, `maxLen = 5`. -/
theorem c10_truncate_safe_witness :
    (3 : Int) ≤ 5 ∧ ∃ t, TruncateString ("ab\ncdef".data) 5 = some t ∧
      (t.length : Int) ≤ 5 ∧ '\n' ∉ t ∧ '\r' ∉ t :=
  ⟨by decide, c10_truncate_safe ("ab\ncdef".data) 5 (by decide)⟩

/-! ## C3: resolved-comment visibility in `list` and `tree` -/

/-- C3.  With all other flags at their defaults: the default `list`
filter keeps exactly the unresolved comments, `--all` keeps every
comment, `--resolved=true` (without `--all`) keeps exactly the resolved
comments; the default `tree` grouping keeps exactly the unresolved
comments of each review and `tree --all` keeps all of them. -/
theorem c3_resolved_visibility (comments : List ReviewComment) (c : ReviewComment) (rid : Int) :
    (c ∈ filterReviewComments ⟨0, "", "", false, ""⟩ comments ↔
      c ∈ comments ∧ c.isResolved = false)
    ∧ filterReviewComments ⟨0, "", "", true, ""⟩ comments = comments
    ∧ (c ∈ filterReviewComments ⟨0, "", "true", false, ""⟩ comments ↔
      c ∈ comments ∧ c.isResolved = true)
    ∧ (c ∈ treeCommentsForReview false comments rid ↔
      c ∈ comments ∧ c.isResolved = false ∧ c.pullRequestReviewID = rid)
    ∧ (c ∈ treeCommentsForReview true comments rid ↔
      c ∈ comments ∧ c.pullRequestReviewID = rid) :=
  ⟨by
    rw [filterReviewComments_eq_filter]
    simp [List.mem_filter, skipByReviewID, skipByOutdated, skipByResolved],
  by
    rw [filterReviewComments_eq_filter]
    simp [skipByReviewID, skipByOutdated, skipByResolved],
  by
    rw [filterReviewComments_eq_filter]
    simp [List.mem_filter, skipByReviewID, skipByOutdated, skipByResolved],
  by
    rw [treeCommentsForReview_eq_filter]
    simp [List.mem_filter, and_comm],
  by
    rw [treeCommentsForReview_eq_filter]
    simp [List.mem_filter]⟩

/-! ## C7: filter composition in `list` -/

/-- Counterexample to C7 as stated.  With `--all` and `--resolved=true`
both supplied, an unresolved comment still appears in the output, even
though it fails the supplied resolved filter: the `--all` flag bypasses
the resolved filter entirely (`if !listAll { ... }` in
`filterReviewComments`), so a supplied filter is *not* applied
regardless of which other flags are present. -/
theorem c7_counterexample :
    filterReviewComments ⟨0, "", "true", true, ""⟩ [sampleUnresolved] = [sampleUnresolved]
    ∧ sampleUnresolved.isResolved = false := by
  constructor
  · rfl
  · rfl

/-- C7 (amended).  A comment appears in the filtered list iff it is in
the fetched list and passes each of the three skip conditions; the
review-ID and outdated filters are applied whenever supplied, but the
resolved filter (supplied or the default exclusion) is applied only
when `--all` is absent.  The `--type` restriction selects which halves
of the unified output are assembled at all. -/
theorem c7_filter_conjunction (f : ListFlags) (comments : List ReviewComment)
    (issueComments : List IssueComment) (c : ReviewComment) :
    (c ∈ filterReviewComments f comments ↔
      c ∈ comments ∧ skipByReviewID f c = false ∧ skipByOutdated f c = false ∧
        skipByResolved f c = false)
    ∧ (f.commentType = "review" →
      runListComments f comments issueComments =
        (filterReviewComments f comments).map toUnifiedReview)
    ∧ (f.commentType = "issue" →
      runListComments f comments issueComments = issueComments.map toUnifiedIssue) := by
  refine ⟨?_, ?_, ?_⟩
  · rw [filterReviewComments_eq_filter]
    simp [List.mem_filter, and_assoc]
  · intro h
    simp [runListComments, h]
  · intro h
    simp [runListComments, h]

/-- Witness for C7 (amended) at a concrete flag set and comment list:
with `--review-id=7` and `--outdated=false` the sample comment passes
all three conditions and appears. -/
theorem c7_filter_conjunction_witness :
    (sampleUnresolved ∈ filterReviewComments ⟨7, "false", "", false, ""⟩ [sampleUnresolved] ↔
      sampleUnresolved ∈ [sampleUnresolved] ∧
        skipByReviewID ⟨7, "false", "", false, ""⟩ sampleUnresolved = false ∧
        skipByOutdated ⟨7, "false", "", false, ""⟩ sampleUnresolved = false ∧
        skipByResolved ⟨7, "false", "", false, ""⟩ sampleUnresolved = false)
    ∧ ("issue" : String) = "issue"
    ∧ runListComments ⟨7, "false", "", false, "issue"⟩ [] [⟨9, "bob", "hi"⟩] =
        [⟨9, "bob", "hi"⟩].map toUnifiedIssue := by
  have h := c7_filter_conjunction ⟨7, "false", "", false, "issue"⟩ [] [⟨9, "bob", "hi"⟩]
    sampleUnresolved
  refine ⟨(c7_filter_conjunction ⟨7, "false", "", false, ""⟩ [sampleUnresolved] []
    sampleUnresolved).1, rfl, h.2.2 rfl⟩

/-! ## C4: cleanup candidate identification -/

/-- C4.  Every review gets a candidate record; it can be minimized iff
the review has at least one inline comment and all of them are
resolved; a review with zero inline comments is skipped with reason
"no inline comments"; a review with an unresolved comment is skipped
with reason "has unresolved comments". -/
theorem c4_cleanup_candidates (reviews : List Review) (comments : List ReviewComment)
    (r : Review) (hr : r ∈ reviews) :
    ∃ cand ∈ identifyCleanupCandidates reviews comments,
      cand.review = r
      ∧ (cand.canMinimize = true ↔
          (commentsByReview comments r.id ≠ [] ∧
            ∀ c ∈ commentsByReview comments r.id, c.isResolved = true))
      ∧ (commentsByReview comments r.id = [] →
          cand.canMinimize = false ∧ cand.reason = "no inline comments")
      ∧ ((∃ c ∈ commentsByReview comments r.id, c.isResolved = false) →
          cand.canMinimize = false ∧ cand.reason = "has unresolved comments") := by
  refine ⟨candidateFor comments r, List.mem_map_of_mem _ hr, ?_⟩
  set g := commentsByReview comments r.id with hg
  have hle : g.countP (·.isResolved) ≤ g.length := List.countP_le_length _
  have hiff : g.countP (·.isResolved) = g.length ↔ ∀ c ∈ g, c.isResolved = true :=
    List.countP_eq_length
  unfold candidateFor
  rw [← hg]
  by_cases h0 : g.length = 0
  · have hnil : g = [] := List.length_eq_zero.mp h0
    rw [if_pos h0]
    refine ⟨rfl, ?_, fun _ => ⟨rfl, rfl⟩, ?_⟩
    · simp [hnil]
    · rintro ⟨c, hc, -⟩
      rw [hnil] at hc
      exact absurd hc (List.not_mem_nil c)
  · rw [if_neg h0]
    by_cases hlt : g.countP (·.isResolved) < g.length
    · rw [if_pos hlt]
      refine ⟨rfl, ?_, ?_, fun _ => ⟨rfl, rfl⟩⟩
      · refine iff_of_false (by simp) ?_
        rintro ⟨-, hall⟩
        exact absurd (hiff.mpr hall) (Nat.ne_of_lt hlt)
      · intro hnil
        rw [hnil] at h0
        exact absurd rfl h0
    · rw [if_neg hlt]
      have heq : g.countP (·.isResolved) = g.length := Nat.le_antisymm hle (Nat.le_of_not_lt hlt)
      have hall : ∀ c ∈ g, c.isResolved = true := hiff.mp heq
      refine ⟨rfl, ?_, ?_, ?_⟩
      · simp only [true_iff]
        exact ⟨fun hnil => h0 (by rw [hnil]; rfl), hall⟩
      · intro hnil
        rw [hnil] at h0
        exact absurd rfl h0
      · rintro ⟨c, hc, hcfalse⟩
        rw [hall c hc] at hcfalse
        exact absurd hcfalse (by simp)

/-- Witness for C4 at the spec's scenario: review 1 has two resolved
comments (candidate), review 2 has a resolved and an unresolved comment
(skipped, "has unresolved comments"), review 3 has none (skipped,
"no inline comments"). -/
theorem c4_cleanup_candidates_witness :
    (∃ cand ∈ identifyCleanupCandidates
        [⟨1, "n1", "u", "", "COMMENTED"⟩, ⟨2, "n2", "u", "", "COMMENTED"⟩,
          ⟨3, "n3", "u", "", "COMMENTED"⟩]
        [{ sampleUnresolved with id := 11, pullRequestReviewID := 1, isResolved := true },
          { sampleUnresolved with id := 12, pullRequestReviewID := 1, isResolved := true },
          { sampleUnresolved with id := 21, pullRequestReviewID := 2, isResolved := true },
          { sampleUnresolved with id := 22, pullRequestReviewID := 2, isResolved := false }],
      cand.review = (⟨3, "n3", "u", "", "COMMENTED"⟩ : Review)
      ∧ cand.canMinimize = false ∧ cand.reason = "no inline comments") := by
  obtain ⟨cand, hmem, hrev, -, hnone, -⟩ := c4_cleanup_candidates
    [⟨1, "n1", "u", "", "COMMENTED"⟩, ⟨2, "n2", "u", "", "COMMENTED"⟩,
      ⟨3, "n3", "u", "", "COMMENTED"⟩]
    [{ sampleUnresolved with id := 11, pullRequestReviewID := 1, isResolved := true },
      { sampleUnresolved with id := 12, pullRequestReviewID := 1, isResolved := true },
      { sampleUnresolved with id := 21, pullRequestReviewID := 2, isResolved := true },
      { sampleUnresolved with id := 22, pullRequestReviewID := 2, isResolved := false }]
    ⟨3, "n3", "u", "", "COMMENTED"⟩ (by decide)
  exact ⟨cand, hmem, hrev, hnone (by decide)⟩

/-! ## C5: resolve deduplication by thread -/

/-- C5.  When two requested comment IDs `a` and `b` resolve to the same
thread `t`, the run issues exactly one mutation (against `t`) and the
second request's result is marked skipped with success true. -/
theorem c5_resolve_dedup (commentToThread : Int → Option String) (a b : Int) (t : String)
    (ha : commentToThread a = some t) (hb : commentToThread b = some t) :
    runResolve commentToThread [a, b] =
      { results := [⟨a, t, "resolved", true, false, ""⟩, ⟨b, t, "resolved", true, true, ""⟩],
        processedThreads := [t],
        mutationCalls := [t] } := by
  simp [runResolve, resolveStep, ha, hb]

/-- Witness for C5 at a concrete thread map sending comments 1 and 2 to
thread "T". -/
theorem c5_resolve_dedup_witness :
    runResolve (fun i => if i = 1 ∨ i = 2 then some ("T") else none) [1, 2] =
      { results := [⟨1, "T", "resolved", true, false, ""⟩, ⟨2, "T", "resolved", true, true, ""⟩],
        processedThreads := ["T"],
        mutationCalls := ["T"] } :=
  c5_resolve_dedup (fun i => if i = 1 ∨ i = 2 then some ("T") else none) 1 2 ("T")
    (by simp) (by simp)

/-! ## C8: non-fatal resolved-status fetch failure -/

/-- C8.  If the GraphQL resolved-status fetch fails, `GetReviewComments`
still returns (with a warning) the REST list unchanged — so every
comment keeps the REST default `resolved = false`; if the fetch
succeeds, a comment whose ID has no entry in the fetched thread data is
returned unchanged. -/
theorem c8_fetch_failure (rest : List ReviewComment)
    (fetch : Except String (List ReviewThread)) :
    (∀ e, fetch = .error e →
      GetReviewComments rest fetch = (rest, true) ∧
      ((∀ c ∈ rest, c.isResolved = false) →
        ∀ c ∈ (GetReviewComments rest fetch).1, c.isResolved = false))
    ∧ (∀ server, fetch = .ok server →
      (GetReviewComments rest fetch).2 = false ∧
      ∀ (i : Nat) (c : ReviewComment), rest[i]? = some c →
        lookupLast (getResolvedStatus server) c.id = none →
        (GetReviewComments rest fetch).1[i]? = some c) := by
  cases fetch with
  | error e' =>
    refine ⟨fun e _ => ⟨rfl, fun hall c hc => hall c hc⟩, fun server h => ?_⟩
    exact absurd h (by simp)
  | ok server' =>
    refine ⟨fun e h => absurd h (by simp), fun server h => ?_⟩
    obtain rfl : server' = server := by injection h
    refine ⟨rfl, fun i c hi hnone => ?_⟩
    show (mergeResolved (getResolvedStatus server') rest)[i]? = some c
    rw [mergeResolved, List.getElem?_map, hi]
    simp [hnone]

/-- Witness for C8: a failed fetch returns the list unchanged with a
warning, and on a successful fetch a comment absent from the thread
data keeps its record unchanged. -/
theorem c8_fetch_failure_witness :
    GetReviewComments [sampleUnresolved] (Except.error ("boom")) = ([sampleUnresolved], true)
    ∧ (GetReviewComments [sampleUnresolved]
        (.ok [⟨"T", true, [99]⟩])).1[0]? = some sampleUnresolved := by
  have h₁ := c8_fetch_failure [sampleUnresolved] (Except.error ("boom"))
  have h₂ := c8_fetch_failure [sampleUnresolved] (Except.ok [⟨"T", true, [99]⟩])
  exact ⟨(h₁.1 ("boom") rfl).1,
    (h₂.2 [⟨"T", true, [99]⟩] rfl).2 0 sampleUnresolved rfl (by decide)⟩

/-! ## Lemmas about the reconciliation maps -/

theorem lookupLast_cons {β : Type} (p : Int × β) (m : List (Int × β)) (k : Int) :
    lookupLast (p :: m) k =
      match lookupLast m k with
      | some v => some v
      | none => if p.1 = k then some p.2 else none := by
  show m.foldl _ (if p.1 = k then some p.2 else none) = _
  exact lookupLast_foldl_init m k _

theorem lookupLast_map_pair {β : Type} {v : β} {ids : List Int} {cid : Int} (h : cid ∈ ids) :
    lookupLast (ids.map fun i => (i, v)) cid = some v := by
  induction ids with
  | nil => cases h
  | cons i ids ih =>
    rw [List.map_cons, lookupLast_cons]
    by_cases hmem : cid ∈ ids
    · rw [ih hmem]
    · have hnone : lookupLast (ids.map fun i => (i, v)) cid = none := by
        apply lookupLast_eq_none
        intro p hp
        obtain ⟨j, hj, rfl⟩ := List.mem_map.mp hp
        intro hjk
        exact hmem (hjk ▸ hj)
      rw [hnone]
      have hik : i = cid := by
        rcases List.mem_cons.mp h with h' | h'
        · exact h'.symm
        · exact absurd h' hmem
      simp [hik]

theorem lookupLast_isSome_of_key {β : Type} {m : List (Int × β)} {k : Int} {p : Int × β}
    (hp : p ∈ m) (hk : p.1 = k) : (lookupLast m k).isSome = true := by
  induction m with
  | nil => cases hp
  | cons q m ih =>
    rw [lookupLast_cons]
    rcases List.mem_cons.mp hp with rfl | hp'
    · cases hl : lookupLast m k with
      | some v => rfl
      | none => simp [hk]
    · cases hl : lookupLast m k with
      | some v => rfl
      | none =>
        have := ih hp'
        rw [hl] at this
        cases this

theorem mem_resolvedEntries {rs : List ReviewThread} {p : Int × Bool}
    (hp : p ∈ resolvedEntries rs) :
    ∃ t ∈ rs, p.1 ∈ t.commentIDs ∧ p.2 = t.isResolved := by
  rw [resolvedEntries_eq_join] at hp
  obtain ⟨l, hl, hpl⟩ := List.mem_flatten.mp hp
  obtain ⟨t, ht, rfl⟩ := List.mem_map.mp hl
  obtain ⟨cid, hcid, rfl⟩ := List.mem_map.mp hpl
  exact ⟨t, ht, hcid, rfl⟩

theorem mem_threadEntries_of {rs : List ReviewThread} {t : ReviewThread} {cid : Int}
    (ht : t ∈ rs) (hcid : cid ∈ t.commentIDs) : (cid, t.id) ∈ threadEntries rs := by
  rw [threadEntries_eq_join]
  exact List.mem_flatten.mpr
    ⟨t.commentIDs.map fun i => (i, t.id), List.mem_map_of_mem _ ht,
      List.mem_map_of_mem _ hcid⟩

theorem thread_unique {rs : List ReviewThread} (hdisj : rs.Pairwise ThreadsDisjoint)
    {t₁ t₂ : ReviewThread} (h₁ : t₁ ∈ rs) (h₂ : t₂ ∈ rs) {cid : Int}
    (hc₁ : cid ∈ t₁.commentIDs) (hc₂ : cid ∈ t₂.commentIDs) : t₁ = t₂ := by
  induction rs with
  | nil => cases h₁
  | cons t rs ih =>
    obtain ⟨hhead, htail⟩ := List.pairwise_cons.mp hdisj
    rcases List.mem_cons.mp h₁ with rfl | h₁' <;> rcases List.mem_cons.mp h₂ with rfl | h₂'
    · rfl
    · exact absurd hc₂ (hhead t₂ h₂' cid hc₁)
    · exact absurd hc₁ (hhead t₁ h₁' cid hc₂)
    · exact ih htail h₁' h₂'

/-- With pairwise-disjoint thread nodes, the resolved map answers the
owning thread's flag for each member comment ID. -/
theorem lookupLast_resolvedEntries {rs : List ReviewThread}
    (hdisj : rs.Pairwise ThreadsDisjoint) {t : ReviewThread} (ht : t ∈ rs) {cid : Int}
    (hcid : cid ∈ t.commentIDs) :
    lookupLast (resolvedEntries rs) cid = some t.isResolved := by
  induction rs with
  | nil => cases ht
  | cons t' rs ih =>
    have hcons : resolvedEntries (t' :: rs) =
        (t'.commentIDs.map fun i => (i, t'.isResolved)) ++ resolvedEntries rs := by
      rw [resolvedEntries_eq_join, resolvedEntries_eq_join]
      simp
    obtain ⟨hhead, htail⟩ := List.pairwise_cons.mp hdisj
    rw [hcons, lookupLast_append]
    rcases List.mem_cons.mp ht with rfl | htl
    · have hnone : lookupLast (resolvedEntries rs) cid = none := by
        apply lookupLast_eq_none
        intro p hp
        obtain ⟨t₂, ht₂, hpk, -⟩ := mem_resolvedEntries hp
        intro hk
        exact hhead t₂ ht₂ cid hcid (hk ▸ hpk)
      rw [hnone]
      exact lookupLast_map_pair hcid
    · rw [ih htail htl]

/-! ## C1: resolved status is a thread property -/

/-- Counterexample to C1 as stated.  The GraphQL query fetches only the
first 100 comments of each thread (`comments(first: 100)`), so in a
thread with 101 comments the reconciliation pass marks comment 0
resolved but leaves comment 100 at the REST default false, although
both belong to the same thread. -/
theorem c1_counterexample :
    ((GetReviewComments c1Rest (.ok [c1Thread])).1[0]?).map (·.isResolved) = some true
    ∧ ((GetReviewComments c1Rest (.ok [c1Thread])).1[100]?).map (·.isResolved) = some false
    ∧ ((GetReviewComments c1Rest (.ok [c1Thread])).1[0]?).map (·.id) = some 0
    ∧ ((GetReviewComments c1Rest (.ok [c1Thread])).1[100]?).map (·.id) = some 100
    ∧ (0 : Int) ∈ c1Thread.commentIDs ∧ (100 : Int) ∈ c1Thread.commentIDs := by
  refine ⟨?_, ?_, ?_, ?_, ?_, ?_⟩ <;> decide

/-- C1 (amended).  After the reconciliation pass, two comments of the
same thread report identical resolved status, provided the server-side
threads are pairwise disjoint, no thread exceeds the query's per-thread
comment page (100), and the REST records carry the default
`resolved = false`. -/
theorem c1_thread_resolved_consistent (server : List ReviewThread)
    (rest : List ReviewComment)
    (hdisj : server.Pairwise ThreadsDisjoint)
    (hsmall : ∀ t ∈ server, t.commentIDs.length ≤ 100)
    (hrest : ∀ c ∈ rest, c.isResolved = false)
    {t : ReviewThread} (ht : t ∈ server) {c₁ c₂ : ReviewComment}
    (hc₁ : c₁ ∈ (GetReviewComments rest (.ok server)).1)
    (hc₂ : c₂ ∈ (GetReviewComments rest (.ok server)).1)
    (hid₁ : c₁.id ∈ t.commentIDs) (hid₂ : c₂.id ∈ t.commentIDs) :
    c₁.isResolved = c₂.isResolved := by
  have hdisj100 : ((server.take 100).map truncNode).Pairwise ThreadsDisjoint := by
    refine List.pairwise_map.mpr ?_
    refine ((hdisj.sublist (List.take_sublist 100 server)).imp ?_)
    intro a b hab cid hcid hcid₂
    exact hab cid (List.mem_of_mem_take hcid) (List.mem_of_mem_take hcid₂)
  have hM : getResolvedStatus server = resolvedEntries ((server.take 100).map truncNode) := rfl
  have key : ∀ c ∈ (GetReviewComments rest (.ok server)).1, c.id ∈ t.commentIDs →
      c.isResolved = (if t ∈ server.take 100 then t.isResolved else false) := by
    intro c hc hid
    obtain ⟨c', hc', rfl⟩ := List.mem_map.mp hc
    have hcid : (match lookupLast (getResolvedStatus server) c'.id with
        | some r => { c' with isResolved := r }
        | none => c').id = c'.id := by
      cases lookupLast (getResolvedStatus server) c'.id <;> rfl
    rw [hcid] at hid
    by_cases hmem : t ∈ server.take 100
    · have htrunc : (truncNode t).commentIDs = t.commentIDs := by
        show t.commentIDs.take 100 = t.commentIDs
        exact List.take_of_length_le (hsmall t ht)
      have hlook : lookupLast (getResolvedStatus server) c'.id = some t.isResolved := by
        rw [hM]
        have := lookupLast_resolvedEntries hdisj100
          (List.mem_map_of_mem truncNode hmem) (htrunc ▸ hid)
        simpa [truncNode] using this
      rw [if_pos hmem, hlook]
    · have hlook : lookupLast (getResolvedStatus server) c'.id = none := by
        rw [hM]
        apply lookupLast_eq_none
        intro p hp hpk
        obtain ⟨t'', ht'', hpmem, -⟩ := mem_resolvedEntries hp
        obtain ⟨tp, htp, rfl⟩ := List.mem_map.mp ht''
        have htpmem : c'.id ∈ tp.commentIDs :=
          List.mem_of_mem_take (by simpa [truncNode, hpk] using hpmem)
        have : tp = t := thread_unique hdisj
          (List.mem_of_mem_take htp) ht htpmem hid
        exact hmem (this ▸ htp)
      rw [if_neg hmem, hlook]
      exact hrest c' hc'
  rw [key c₁ hc₁ hid₁, key c₂ hc₂ hid₂]

/-- Witness for C1 (amended): two comments of the same (small) thread
both come out resolved. -/
theorem c1_thread_resolved_consistent_witness :
    (({ sampleUnresolved with id := 1, isResolved := true } : ReviewComment)).isResolved =
      (({ sampleUnresolved with id := 2, isResolved := true } : ReviewComment)).isResolved := by
  have h := @c1_thread_resolved_consistent
    [⟨"T1", true, [1, 2]⟩, ⟨"T2", false, [3]⟩]
    [{ sampleUnresolved with id := 1 }, { sampleUnresolved with id := 2 },
      { sampleUnresolved with id := 3 }]
    (by decide)
    (by decide) (by decide)
    ⟨"T1", true, [1, 2]⟩ (by decide)
    { sampleUnresolved with id := 1, isResolved := true }
    { sampleUnresolved with id := 2, isResolved := true }
    (by decide) (by decide) (by decide) (by decide)
  exact h

/-! ## C2: thread pagination and the two indexes -/

/-- The paging loop of `GetReviewThreads` accumulates every server
thread (each with its comments truncated to the first 100). -/
theorem getReviewThreadsFrom_covers (server : List ReviewThread) :
    ∀ (off : Nat), getReviewThreadsFrom server off = (server.drop off).map truncNode := by
  have H : ∀ (n off : Nat), server.length - off ≤ n →
      getReviewThreadsFrom server off = (server.drop off).map truncNode := by
    intro n
    induction n with
    | zero =>
      intro off h
      rw [getReviewThreadsFrom.eq_def]
      simp only [serverPage]
      rw [decide_eq_false (by omega : ¬(off + 100 < server.length))]
      have : (server.drop off).take 100 = server.drop off :=
        List.take_of_length_le (by rw [List.length_drop]; omega)
      rw [this]
    | succ n ih =>
      intro off h
      rw [getReviewThreadsFrom.eq_def]
      simp only [serverPage]
      by_cases hlt : off + 100 < server.length
      · rw [decide_eq_true hlt]
        show ((server.drop off).take 100).map truncNode ++ getReviewThreadsFrom server (off + 100) = _
        rw [ih (off + 100) (by omega), ← List.map_append]
        congr 1
        have hdd : server.drop (off + 100) = (server.drop off).drop 100 := by
          rw [List.drop_drop, Nat.add_comm]
        rw [hdd, List.take_append_drop]
      · rw [decide_eq_false hlt]
        have : (server.drop off).take 100 = server.drop off :=
          List.take_of_length_le (by rw [List.length_drop]; omega)
        rw [this]
  exact fun off => H (server.length - off) off (Nat.le_refl _)

theorem getReviewThreads_eq_map (server : List ReviewThread) :
    GetReviewThreads server = server.map truncNode := by
  rw [GetReviewThreads, getReviewThreadsFrom_covers server 0]
  rfl

set_option maxRecDepth 4000 in
/-- Counterexample to C2 as stated.  (i) With 101 threads, the
comment-ID → isResolved index built by `getResolvedStatus` (a single
unpaginated query) has no entry for the comment of the 101st thread,
while the paginated `GetReviewThreads` index does — so the display
index is *not* built from the complete set of threads.  (ii) With one
thread of 101 comments, even the paginated index misses the 101st
member comment, because `comments(first: 100)` truncates each thread's
member list — so the pass does not record against *every* member
comment's database ID. -/
theorem c2_counterexample :
    lookupLast (getResolvedStatus c2Server) 100 = none
    ∧ (⟨"t", true, [(100 : Int)]⟩ : ReviewThread) ∈ c2Server
    ∧ lookupLast (threadEntries (GetReviewThreads c2Server)) 100 = some ("t")
    ∧ (100 : Int) ∈ c1Thread.commentIDs
    ∧ lookupLast (threadEntries (GetReviewThreads [c1Thread])) 100 = none := by
  rw [getReviewThreads_eq_map, getReviewThreads_eq_map]
  refine ⟨?_, ?_, ?_, ?_, ?_⟩ <;> decide

/-- C2 (amended).  `GetReviewThreads` pages through the threads with
page size 100 until no next page, accumulating all server threads,
each restricted to its first 100 member comments; the comment-ID →
thread-ID index built from it answers for every such member comment.
The comment-ID → isResolved index used for display filtering, in
contrast, is built from the single unpaginated page: only the first
100 threads. -/
theorem c2_thread_indexes (server : List ReviewThread) :
    GetReviewThreads server = server.map truncNode
    ∧ getResolvedStatus server = resolvedEntries ((server.take 100).map truncNode)
    ∧ ∀ t ∈ server, ∀ cid ∈ t.commentIDs.take 100,
        (lookupLast (threadEntries (GetReviewThreads server)) cid).isSome = true := by
  refine ⟨getReviewThreads_eq_map server, rfl, fun t ht cid hcid => ?_⟩
  rw [getReviewThreads_eq_map]
  exact lookupLast_isSome_of_key
    (mem_threadEntries_of (List.mem_map_of_mem truncNode ht) hcid) rfl

/-- Witness for C2 (amended) at a two-thread server. -/
theorem c2_thread_indexes_witness :
    GetReviewThreads [⟨"T1", true, [1, 2]⟩, ⟨"T2", false, [3]⟩] =
      [⟨"T1", true, [1, 2]⟩, ⟨"T2", false, [3]⟩].map truncNode
    ∧ (lookupLast (threadEntries
        (GetReviewThreads [⟨"T1", true, [1, 2]⟩, ⟨"T2", false, [3]⟩])) 3).isSome = true := by
  have h := c2_thread_indexes [⟨"T1", true, [1, 2]⟩, ⟨"T2", false, [3]⟩]
  exact ⟨h.1, h.2.2 ⟨"T2", false, [3]⟩ (by decide) 3 (by decide)⟩

/-! ## C9: URL and short reference forms parse identically -/

theorem splitAt_sep {α : Type} (p : α → Bool) (xs : List α) (y : α) (ys : List α)
    (hxs : ∀ x ∈ xs, p x = true) (hy : p y = false) :
    (xs ++ y :: ys).takeWhile p = xs ∧ (xs ++ y :: ys).dropWhile p = y :: ys := by
  induction xs with
  | nil => simp [List.takeWhile_cons, List.dropWhile_cons, hy]
  | cons x xs ih =>
    have hx : p x = true := hxs x (by simp)
    have ih' := ih fun z hz => hxs z (by simp [hz])
    simp [List.takeWhile_cons, List.dropWhile_cons, hx, ih'.1, ih'.2]

theorem takeWhile_all {α : Type} {p : α → Bool} {l : List α} (h : ∀ x ∈ l, p x = true) :
    l.takeWhile p = l := by
  induction l with
  | nil => rfl
  | cons x l ih =>
    simp [List.takeWhile_cons, h x (by simp), ih fun z hz => h z (by simp [hz])]

theorem dropWhile_head_false {α : Type} {p : α → Bool} {l : List α} {y : α} {ys : List α}
    (h : l.dropWhile p = y :: ys) : p y = false := by
  induction l with
  | nil => cases h
  | cons x l ih =>
    rw [List.dropWhile_cons] at h
    by_cases hx : p x = true
    · rw [if_pos hx] at h
      exact ih h
    · rw [if_neg hx] at h
      injection h with h₁ h₂
      rw [← h₁]
      exact eq_false_of_ne_true hx

/-- At a position just after `github.com/`, the URL pattern matches the
well-formed remainder `owner/repo/pull/digits` with those captures. -/
theorem tryURLAt_on (ow rp ds : List Char)
    (how : ow ≠ []) (hrp : rp ≠ []) (hds : ds ≠ [])
    (how' : ∀ c ∈ ow, c ≠ '/') (hrp' : ∀ c ∈ rp, c ≠ '/')
    (hds' : ∀ c ∈ ds, c.isDigit = true) :
    tryURLAt (ow ++ '/' :: (rp ++ ("/pull/".data ++ ds))) = some (ow, rp, ds) := by
  have hsp₁ := splitAt_sep (fun c => c ≠ '/') ow '/' (rp ++ ("/pull/".data ++ ds))
    (fun x hx => by simpa using how' x hx) (by simp)
  have hsp₂ := splitAt_sep (fun c => c ≠ '/') rp '/' ("pull/".data ++ ds)
    (fun x hx => by simpa using hrp' x hx) (by simp)
  simp only [tryURLAt]
  rw [hsp₁.1, hsp₁.2]
  rw [if_neg (by simp [how])]
  rw [List.tail_cons]
  rw [show (rp ++ ("/pull/".data ++ ds)) = rp ++ '/' :: ("pull/".data ++ ds) from rfl]
  rw [hsp₂.1, hsp₂.2]
  rw [if_neg hrp]
  rw [if_pos (show ('/' :: ("pull/".data ++ ds)).take 6 = "/pull/".data from rfl)]
  rw [show ('/' :: ("pull/".data ++ ds)).drop 6 = ds from rfl]
  rw [takeWhile_all hds']
  rw [if_neg hds]

/-- If the text at a scan position does not start with `g`, the scan
moves on. -/
theorem findURLMatch_cons_ne (c : Char) (rest : List Char) (hc : c ≠ 'g') :
    findURLMatch (c :: rest) = findURLMatch rest := by
  have hne : (c :: rest).take 11 ≠ "github.com/".data := by
    intro h
    exact hc (congrArg (fun l => l.headD ' ') h)
  simp only [findURLMatch]
  rw [if_neg hne]

/-- A scan position whose text is `github.com/` followed by a matching
remainder yields that match. -/
theorem findURLMatch_github {tail : List Char} {m : List Char × List Char × List Char}
    (h : tryURLAt tail = some m) :
    findURLMatch ("github.com/".data ++ tail) = some m := by
  rw [show ("github.com/".data ++ tail) =
    'g' :: 'i' :: 't' :: 'h' :: 'u' :: 'b' :: '.' :: 'c' :: 'o' :: 'm' :: '/' :: tail from rfl]
  simp only [findURLMatch]
  rw [show (('g' :: 'i' :: 't' :: 'h' :: 'u' :: 'b' :: '.' :: 'c' :: 'o' :: 'm' :: '/' :: tail).take 11 =
    "github.com/".data) from rfl]
  rw [if_pos rfl]
  rw [show (('g' :: 'i' :: 't' :: 'h' :: 'u' :: 'b' :: '.' :: 'c' :: 'o' :: 'm' :: '/' :: tail).drop 11 = tail) from rfl]
  rw [h]

/-- A successful match of the URL pattern tail needs at least two
slashes after the `github.com/` literal. -/
theorem tryURLAt_slashes {l : List Char} {m : List Char × List Char × List Char}
    (h : tryURLAt l = some m) : 2 ≤ l.count '/' := by
  simp only [tryURLAt] at h
  cases hdw : l.dropWhile (fun c => c ≠ '/') with
  | nil =>
    rw [hdw] at h
    exact absurd h (by simp)
  | cons y after₁ =>
    rw [hdw] at h
    have hy : y = '/' := by simpa using dropWhile_head_false hdw
    rw [List.tail_cons] at h
    by_cases h₂ : (after₁.dropWhile (fun c => c ≠ '/')).take 6 = ['/', 'p', 'u', 'l', 'l', '/']
    · have hmem : '/' ∈ after₁.dropWhile (fun c => c ≠ '/') :=
        List.mem_of_mem_take (by rw [h₂]; decide)
      have h1 : 1 ≤ after₁.count '/' :=
        le_trans (List.count_pos_iff.mpr hmem)
          ((List.dropWhile_sublist _).count_le '/')
      have hsplit : l = l.takeWhile (fun c => c ≠ '/') ++ (y :: after₁) := by
        rw [← hdw]
        exact (List.takeWhile_append_dropWhile _ _).symm
      have hcnt := congrArg (List.count '/') hsplit
      rw [List.count_append, List.count_cons, hy] at hcnt
      simp only [beq_self_eq_true, if_pos] at hcnt
      omega
    · by_cases hA : (l.takeWhile (fun c => c ≠ '/') = [] ∨ y :: after₁ = [])
      · rw [if_pos hA] at h
        exact absurd h (by simp)
      · rw [if_neg hA] at h
        by_cases hB : after₁.takeWhile (fun c => c ≠ '/') = []
        · rw [if_pos hB] at h
          exact absurd h (by simp)
        · rw [if_neg hB, if_neg h₂] at h
          exact absurd h (by simp)

/-- The unanchored URL scan finds nothing in a string with fewer than
three slashes. -/
theorem findURLMatch_of_few_slashes : ∀ {l : List Char}, l.count '/' < 3 →
    findURLMatch l = none := by
  intro l
  induction l with
  | nil => intro _; rfl
  | cons c rest ih =>
    intro h
    have hrest : rest.count '/' < 3 := by
      rw [List.count_cons] at h
      by_cases hc : (c == '/') = true <;> simp [hc] at h <;> omega
    simp only [findURLMatch]
    by_cases hc11 : (c :: rest).take 11 = "github.com/".data
    · rw [if_pos hc11]
      cases htry : tryURLAt ((c :: rest).drop 11) with
      | none => simpa using ih hrest
      | some m =>
        exfalso
        have h2 := tryURLAt_slashes htry
        have hsplit : (c :: rest) = (c :: rest).take 11 ++ (c :: rest).drop 11 :=
          (List.take_append_drop _ _).symm
        have h1 : 1 ≤ ((c :: rest).take 11).count '/' :=
          List.count_pos_iff.mpr (by rw [hc11]; decide)
        have hcnt := congrArg (List.count '/') hsplit
        rw [List.count_append] at hcnt
        omega
    · rw [if_neg hc11]
      exact ih hrest

/-- The anchored short pattern matches a well-formed
`owner/repo/digits` with those captures. -/
theorem matchShortRef_on (ow rp ds : List Char)
    (how : ow ≠ []) (hrp : rp ≠ []) (hds : ds ≠ [])
    (how' : ∀ c ∈ ow, c ≠ '/') (hrp' : ∀ c ∈ rp, c ≠ '/')
    (hds' : ∀ c ∈ ds, c.isDigit = true) :
    matchShortRef (ow ++ '/' :: (rp ++ '/' :: ds)) = some (ow, rp, ds) := by
  have hsp₁ := splitAt_sep (fun c => c ≠ '/') ow '/' (rp ++ '/' :: ds)
    (fun x hx => by simpa using how' x hx) (by simp)
  have hsp₂ := splitAt_sep (fun c => c ≠ '/') rp '/' ds
    (fun x hx => by simpa using hrp' x hx) (by simp)
  simp only [matchShortRef]
  rw [hsp₁.1, hsp₁.2]
  rw [if_neg (by simp [how])]
  rw [List.tail_cons]
  rw [hsp₂.1, hsp₂.2]
  rw [if_neg (by simp [hrp])]
  rw [List.tail_cons]
  rw [if_pos ⟨hds, List.all_eq_true.mpr hds'⟩]

/-- C9.  For any well-formed triple (nonempty slash-free owner and
repo, nonempty digit run), the full-URL reference and the
`owner/repo/number` reference parse to the same `PRReference`. -/
theorem c9_reference_forms (ow rp ds : List Char)
    (how : ow ≠ []) (hrp : rp ≠ []) (hds : ds ≠ [])
    (how' : ∀ c ∈ ow, c ≠ '/') (hrp' : ∀ c ∈ rp, c ≠ '/')
    (hds' : ∀ c ∈ ds, c.isDigit = true) :
    ParsePRReference
        ("https://github.com/".data ++ (ow ++ '/' :: (rp ++ ("/pull/".data ++ ds))))
      = some ⟨ow, rp, (digitsToNat ds : Int)⟩
    ∧ ParsePRReference (ow ++ '/' :: (rp ++ '/' :: ds))
      = some ⟨ow, rp, (digitsToNat ds : Int)⟩ := by
  constructor
  · have hurl := findURLMatch_github (tryURLAt_on ow rp ds how hrp hds how' hrp' hds')
    have hscan : findURLMatch
        ("https://github.com/".data ++ (ow ++ '/' :: (rp ++ ("/pull/".data ++ ds))))
        = some (ow, rp, ds) := by
      rw [show ("https://github.com/".data ++ (ow ++ '/' :: (rp ++ ("/pull/".data ++ ds))))
          = 'h' :: 't' :: 't' :: 'p' :: 's' :: ':' :: '/' :: '/' ::
            ("github.com/".data ++ (ow ++ '/' :: (rp ++ ("/pull/".data ++ ds)))) from rfl]
      rw [findURLMatch_cons_ne _ _ (by decide), findURLMatch_cons_ne _ _ (by decide),
        findURLMatch_cons_ne _ _ (by decide), findURLMatch_cons_ne _ _ (by decide),
        findURLMatch_cons_ne _ _ (by decide), findURLMatch_cons_ne _ _ (by decide),
        findURLMatch_cons_ne _ _ (by decide), findURLMatch_cons_ne _ _ (by decide)]
      exact hurl
    simp only [ParsePRReference]
    rw [hscan]
  · have hnone : findURLMatch (ow ++ '/' :: (rp ++ '/' :: ds)) = none := by
      apply findURLMatch_of_few_slashes
      have hcow : ow.count '/' = 0 := List.count_eq_zero.mpr fun hmem => how' '/' hmem rfl
      have hcrp : rp.count '/' = 0 := List.count_eq_zero.mpr fun hmem => hrp' '/' hmem rfl
      have hcds : ds.count '/' = 0 := List.count_eq_zero.mpr fun hmem => by
        have := hds' '/' hmem
        exact absurd this (by decide)
      rw [List.count_append, List.count_cons, List.count_append, List.count_cons,
        hcow, hcrp, hcds]
      simp
    simp only [ParsePRReference]
    rw [hnone, matchShortRef_on ow rp ds how hrp hds how' hrp' hds']

/-- Witness for C9 at the spec's scenario:
`https://github.com/acme/widgets/pull/42` and `acme/widgets/42` parse
to the same `(acme, widgets, 42)`. -/
theorem c9_reference_forms_witness :
    ParsePRReference ("https://github.com/acme/widgets/pull/42".data)
      = some ⟨"acme".data, "widgets".data, 42⟩
    ∧ ParsePRReference ("acme/widgets/42".data) = some ⟨"acme".data, "widgets".data, 42⟩ := by
  have h := c9_reference_forms ("acme".data) ("widgets".data) ("42".data) (by decide) (by decide)
    (by decide) (by decide) (by decide) (by decide)
  have e₃ : ((digitsToNat ("42".data) : Nat) : Int) = 42 := by decide
  obtain ⟨h₁, h₂⟩ := h
  rw [e₃] at h₁ h₂
  constructor
  · rw [show ("https://github.com/acme/widgets/pull/42".data)
      = "https://github.com/".data ++
        ("acme".data ++ '/' :: ("widgets".data ++ ("/pull/".data ++ "42".data))) from by decide]
    exact h₁
  · rw [show ("acme/widgets/42".data)
      = "acme".data ++ '/' :: ("widgets".data ++ '/' :: "42".data) from by decide]
    exact h₂

end GhPrComments
